import Mathlib

/-!
Verification of the internet-monitor measurement-and-persistence cycle
(src/main.rs).

The program runs a fixed-interval loop: it invokes `ping -c 4 <host>`,
extracts the average round-trip latency from the ping output with the regex
`(?:rtt|round-trip).* = ([0-9.]+)/([0-9.]+)/([0-9.]+)/([0-9.]+) ?ms`,
builds a timestamped `InternetMetrics` record (latency optional), and writes
it to InfluxDB under the series name "internet_metrics", sleeping for the
configured interval after every tick.

The embedding below models:
  * the regex search (leftmost-first semantics with a greedy dot-star, `.`
    matching every character except a newline, exactly as the Rust `regex`
    crate behaves on this pattern) as an executable matcher over `List Char`;
  * float parsing of the captured field (`str::parse::<f64>` restricted to
    the digit/dot strings the character class can capture) with exact
    rational semantics in place of IEEE rounding;
  * `measure_latency` as a function of the subprocess outcome;
  * `run_measurements` as a total function producing an `InternetMetrics`;
  * the main loop (`main`) as a fold over per-tick environments, recording
    for every tick the submitted record, the series name, the reported write
    outcome and the sleep duration.
-/

deriving instance DecidableEq for Except

namespace InternetMonitor

/-- Character class `[0-9.]` of the latency regex. -/
def digitDot (c : Char) : Bool := c.isDigit || c = '.'

/-- Literal alternative `rtt` of the regex. -/
def rttLit : List Char := ['r', 't', 't']

/-- Literal alternative `round-trip` of the regex. -/
def roundLit : List Char := ['r', 'o', 'u', 'n', 'd', '-', 't', 'r', 'i', 'p']

/-- Literal ` = ` that separates the label from the four numeric fields. -/
def eqLit : List Char := [' ', '=', ' ']

/-- Does `cs` start with the literal `lit`? -/
def startsL : List Char → List Char → Bool
  | [], _ => true
  | _ :: _, [] => false
  | l :: ls, c :: cs => c = l && startsL ls cs

/-- Consume the literal `lit` from the front of `cs`, returning the rest. -/
def dropLit : List Char → List Char → Option (List Char)
  | [], cs => some cs
  | _ :: _, [] => none
  | l :: ls, c :: cs => if c = l then dropLit ls cs else none

/-- One capture group `([0-9.]+)`: the maximal nonempty run of class
characters, together with the remaining input.  Maximal munch is exact here
because every character the regex requires after a group (`/`, ` `, `m`) is
outside the class, so the backtracking engine never shortens a group. -/
def fieldRun (cs : List Char) : Option (List Char × List Char) :=
  let f := cs.takeWhile digitDot
  if f = [] then none else some (f, cs.dropWhile digitDot)

/-- The trailing ` ?ms` of the regex: an optional single space (greedy, so
the space alternative is tried first) followed by the literal `ms`. -/
def tailMs (cs : List Char) : Bool :=
  match cs with
  | ' ' :: 'm' :: 's' :: _ => true
  | 'm' :: 's' :: _ => true
  | _ => false

/-- The four capture groups of the latency regex. -/
structure Caps where
  g1 : List Char
  g2 : List Char
  g3 : List Char
  g4 : List Char
  deriving DecidableEq, Repr

/-- Consume the literal `/` between two capture groups. -/
def expectSlash : List Char → Option (List Char)
  | '/' :: r => some r
  | _ => none

/-- Match ` = ([0-9.]+)/([0-9.]+)/([0-9.]+)/([0-9.]+) ?ms` at the very start
of `cs` (trailing input is ignored: the regex is unanchored). -/
def trySuffix (cs : List Char) : Option Caps :=
  Option.bind (dropLit eqLit cs) fun r0 =>
  Option.bind (fieldRun r0) fun p1 =>
  Option.bind (expectSlash p1.2) fun r2 =>
  Option.bind (fieldRun r2) fun p2 =>
  Option.bind (expectSlash p2.2) fun r4 =>
  Option.bind (fieldRun r4) fun p3 =>
  Option.bind (expectSlash p3.2) fun r6 =>
  Option.bind (fieldRun r6) fun p4 =>
  if tailMs p4.2 then some ⟨p1.1, p2.1, p3.1, p4.1⟩ else none

/-- Greedy `.*` followed by the suffix pattern: `.` matches everything but a
newline and the engine prefers the longest extent, so the deepest viable
split point wins; on failure everywhere the whole attempt fails. -/
def matchDotStar : List Char → Option Caps
  | [] => trySuffix []
  | c :: cs =>
    match (if c = '\n' then none else matchDotStar cs) with
    | some r => some r
    | none => trySuffix (c :: cs)

/-- Does one of the two label alternatives start at this position? -/
def markerAt (cs : List Char) : Bool := startsL rttLit cs || startsL roundLit cs

/-- Attempt the whole pattern at the current position.  At any one position
at most one of the two alternatives can apply (`rtt` vs `round-trip` differ
at their second character); `rtt` is tried first, matching the alternation
order in the pattern. -/
def tryHere (cs : List Char) : Option Caps :=
  if startsL rttLit cs then matchDotStar (cs.drop 3)
  else if startsL roundLit cs then matchDotStar (cs.drop 10)
  else none

/-- Leftmost search of `Regex::captures`: try every position left to right
and return the first successful match's capture groups. -/
def reSearch : List Char → Option Caps
  | [] => none
  | c :: cs =>
    match tryHere (c :: cs) with
    | some r => some r
    | none => reSearch cs

/-- Value of a digit string, most significant digit first. -/
def natOfDigits (cs : List Char) : ℕ :=
  cs.foldl (fun a c => a * 10 + (c.toNat - 48)) 0

/-- Model of `str::parse::<f64>` on the digit/dot strings the character
class `[0-9.]+` can capture: such a string parses exactly when it has at
least one digit and at most one dot ("1.", ".5", "123" parse; "", ".",
"1.2.3" do not), and its value is the decimal it denotes (exact rational
semantics in place of IEEE-754 rounding). -/
def parseF64 (cs : List Char) : Option ℚ :=
  if cs.all digitDot = true ∧ cs.any Char.isDigit = true ∧ cs.count '.' ≤ 1 then
    let intPart := cs.takeWhile (fun c => c ≠ '.')
    let fracPart := (cs.dropWhile (fun c => c ≠ '.')).drop 1
    some ((natOfDigits intPart : ℚ) + (natOfDigits fracPart : ℚ) / (10 ^ fracPart.length))
  else none

/-- Error cases of `measure_latency` (the Rust code carries them as boxed
error values with distinct messages; we name them). -/
inductive MLError where
  /-- `Command::output()` returned an error ("Failed to spawn ping command"). -/
  | spawnFailed : MLError
  /-- the subprocess exited nonzero ("Ping command failed: {stderr}"),
  carrying the subprocess's stderr text. -/
  | commandFailed (stderrText : List Char) : MLError
  /-- the captured field did not parse ("Failed to parse average latency
  time as float"). -/
  | numericFormat : MLError
  /-- no line matched either dialect ("Failed to parse ping output"). -/
  | noMatch : MLError
  deriving DecidableEq, Repr

/-- The parsing step of `measure_latency` (lines 64-76 of main.rs): run the
regex over the captured stdout; on a match, parse capture group 2 as a
float; otherwise fail with the no-match error. -/
def parseOutput (stdout : List Char) : Except MLError ℚ :=
  match reSearch stdout with
  | some caps =>
    match parseF64 caps.g2 with
    | some v => Except.ok v
    | none => Except.error MLError.numericFormat
  | none => Except.error MLError.noMatch

/-- Outcome of the `ping` subprocess invocation, the external interface of
`measure_latency`: either `Command::output()` itself failed, or the process
completed with an exit status and captured stdout/stderr. -/
inductive SpawnOutcome where
  | spawnErr : SpawnOutcome
  | completed (okStatus : Bool) (stdout stderrText : List Char) : SpawnOutcome
  deriving DecidableEq, Repr

/-- `measure_latency` as a function of the subprocess outcome: a spawn
failure and a nonzero exit status are returned as distinct error values
(the latter carrying the stderr text); on success the stdout is parsed. -/
def measure_latency (o : SpawnOutcome) : Except MLError ℚ :=
  match o with
  | SpawnOutcome.spawnErr => Except.error MLError.spawnFailed
  | SpawnOutcome.completed okStatus stdout stderrText =>
    if okStatus = false then Except.error (MLError.commandFailed stderrText)
    else parseOutput stdout

/-- The record written to InfluxDB (struct `InternetMetrics`): a timestamp,
a constant measurement-type tag, and an optional latency.  Timestamps are
modelled as natural numbers. -/
structure InternetMetrics where
  time : ℕ
  measurement_type : String
  latency_ms : Option ℚ
  deriving DecidableEq, Repr

/-- `run_measurements`: measure latency, downgrade any failure to an absent
latency, and return a record stamped with the current time.  The `Result`
error type is part of the signature but no code path constructs an error. -/
def run_measurements (probe : SpawnOutcome) (now : ℕ) : Except String InternetMetrics :=
  Except.ok
    { time := now
      measurement_type := "internet_performance"
      latency_ms :=
        match measure_latency probe with
        | Except.ok v => some v
        | Except.error _ => none }

/-- The command-line configuration relevant to the loop. -/
structure Args where
  interval : ℕ
  influxdb_db : String
  latency_url : String
  deriving DecidableEq, Repr

/-- Per-tick environment: the subprocess outcome, the wall-clock time at
which the sample is created, and whether the InfluxDB write succeeds. -/
structure TickEnv where
  probe : SpawnOutcome
  now : ℕ
  writeOk : Bool
  deriving DecidableEq, Repr

/-- Observable record of one loop iteration: the iteration counter after
increment, the write submitted (series name and record; `none` if
`run_measurements` had returned an error and the write was skipped), the
write outcome as reported in the log, and the sleep duration. -/
structure TickLog where
  iteration : ℕ
  written : Option (String × InternetMetrics)
  writeSucceeded : Option Bool
  sleptSecs : ℕ
  deriving DecidableEq, Repr

/-- One iteration of the main loop: increment the counter, run the
measurement, submit the record under the fixed series name
"internet_metrics" when measurement succeeded (logging but ignoring a write
failure), and sleep for the configured interval. -/
def tickStep (args : Args) (iter : ℕ) (env : TickEnv) : ℕ × TickLog :=
  let iter2 := iter + 1
  match run_measurements env.probe env.now with
  | Except.ok m =>
    (iter2, { iteration := iter2
              written := some ("internet_metrics", m)
              writeSucceeded := some env.writeOk
              sleptSecs := args.interval })
  | Except.error _ =>
    (iter2, { iteration := iter2
              written := none
              writeSucceeded := none
              sleptSecs := args.interval })

/-- The main loop unrolled over a list of per-tick environments.  The loop
body contains no exit: every environment is processed. -/
def runTicks (args : Args) (iter : ℕ) : List TickEnv → List TickLog
  | [] => []
  | e :: es =>
    let st := tickStep args iter e
    st.2 :: runTicks args st.1 es

/-- Log severity levels used by the program. -/
inductive Level where
  | info : Level
  | warn : Level
  | error : Level
  deriving DecidableEq, Repr

/-- Outcome of the one-time startup connectivity check against InfluxDB. -/
inductive PingOutcome where
  | ok : PingOutcome
  | err (msg : String) : PingOutcome
  deriving DecidableEq, Repr

/-- The log line `main` emits for the startup connectivity check: success is
logged at info, failure at warn; neither branch aborts. -/
def startupLog : PingOutcome → Level × String
  | PingOutcome.ok => (Level.info, "Successfully connected to InfluxDB")
  | PingOutcome.err e =>
    (Level.warn, "Could not ping InfluxDB, but will try to write anyway: " ++ e)

/-- `main` after client construction: perform the startup connectivity
check (logging its outcome), then unconditionally enter the tick loop. -/
def mainModel (args : Args) (ping : PingOutcome) (envs : List TickEnv) :
    (Level × String) × List TickLog :=
  (startupLog ping, runTicks args 0 envs)

/-- Marker occurrence check used to state the no-match claims: does `rtt` or
`round-trip` occur (as a substring) anywhere in the text? -/
def containsMarker : List Char → Bool
  | [] => false
  | c :: cs => markerAt (c :: cs) || containsMarker cs

/-- No marker occurrence starts within the first `n` positions of `cs`
(used to pin the leftmost match of the search to a known position). -/
def noMarkerUpTo : ℕ → List Char → Bool
  | 0, _ => true
  | _ + 1, [] => true
  | n + 1, c :: cs => !markerAt (c :: cs) && noMarkerUpTo n cs

/-- Scheduler-visible view of a tick: everything it records except the
reported write outcome. -/
def stripWrite (lg : TickLog) : ℕ × Option (String × InternetMetrics) × ℕ :=
  (lg.iteration, lg.written, lg.sleptSecs)

/-- The four slash-separated fields, the optional space and the `ms` unit:
the part of a summary line after its ` = `. -/
def fieldsCore (A B C D sp : List Char) : List Char :=
  A ++ '/' :: (B ++ '/' :: (C ++ '/' :: (D ++ (sp ++ 'm' :: 's' :: []))))

/-- The fields part followed by the rest `z` of the text, in right-nested
form. -/
def fieldsTail (A B C D sp z : List Char) : List Char :=
  A ++ '/' :: (B ++ '/' :: (C ++ '/' :: (D ++ (sp ++ 'm' :: 's' :: z))))

/-- A whole ` = A/B/C/D ms`-shaped line tail followed by the rest `z` of the
text. -/
def lineTail (A B C D sp z : List Char) : List Char :=
  ' ' :: '=' :: ' ' :: fieldsTail A B C D sp z

/-! ### Basic lemmas about the literal matchers -/

theorem startsL_append_self (l r : List Char) : startsL l (l ++ r) = true := by
  induction l with
  | nil => rfl
  | cons c cs ih => simp [startsL, ih]

theorem dropLit_append_self (l r : List Char) : dropLit l (l ++ r) = some r := by
  induction l with
  | nil => rfl
  | cons c cs ih => simp [dropLit, ih]

theorem dropLit_none_of_startsL_false {l cs : List Char} (h : startsL l cs = false) :
    dropLit l cs = none := by
  induction l generalizing cs with
  | nil => simp [startsL] at h
  | cons a as ih =>
    cases cs with
    | nil => rfl
    | cons c cs2 =>
      simp only [startsL, Bool.and_eq_false_iff] at h
      simp only [dropLit]
      rcases h with h | h
      · rw [if_neg (by simpa using h)]
      · by_cases hc : c = a
        · rw [if_pos hc]; exact ih h
        · rw [if_neg hc]

theorem takeWhile_append_stop {f : List Char} {x : Char} (r : List Char)
    (hf : ∀ c ∈ f, digitDot c = true) (hx : digitDot x = false) :
    (f ++ x :: r).takeWhile digitDot = f := by
  induction f with
  | nil => simp [List.takeWhile, hx]
  | cons a as ih =>
    have ha : digitDot a = true := hf a (by simp)
    simp only [List.cons_append, List.takeWhile_cons, ha, if_true]
    rw [ih (fun c hc => hf c (by simp [hc]))]

theorem dropWhile_append_stop {f : List Char} {x : Char} (r : List Char)
    (hf : ∀ c ∈ f, digitDot c = true) (hx : digitDot x = false) :
    (f ++ x :: r).dropWhile digitDot = x :: r := by
  induction f with
  | nil => simp [List.dropWhile, hx]
  | cons a as ih =>
    have ha : digitDot a = true := hf a (by simp)
    simp only [List.cons_append, List.dropWhile_cons, ha, if_true]
    exact ih (fun c hc => hf c (by simp [hc]))

theorem fieldRun_exact {f : List Char} (x : Char) (r : List Char)
    (hf : ∀ c ∈ f, digitDot c = true) (hne : f ≠ []) (hx : digitDot x = false) :
    fieldRun (f ++ x :: r) = some (f, x :: r) := by
  simp [fieldRun, takeWhile_append_stop r hf hx, dropWhile_append_stop r hf hx, hne]

theorem fieldRun_some {cs : List Char} {p : List Char × List Char}
    (h : fieldRun cs = some p) : p.1 ≠ [] ∧ ∀ c ∈ p.1, digitDot c = true := by
  unfold fieldRun at h
  by_cases hne : cs.takeWhile digitDot = []
  · simp [hne] at h
  · simp only [hne, if_false, Option.some.injEq] at h
    have h1 : p.1 = cs.takeWhile digitDot := by rw [← h]
    refine ⟨h1 ▸ hne, fun c hc => ?_⟩
    exact List.mem_takeWhile_imp (h1 ▸ hc)

/-! ### Lemmas about the suffix matcher -/

theorem trySuffix_correct (A B C D sp z : List Char)
    (hA : A ≠ [] ∧ ∀ c ∈ A, digitDot c = true)
    (hB : B ≠ [] ∧ ∀ c ∈ B, digitDot c = true)
    (hC : C ≠ [] ∧ ∀ c ∈ C, digitDot c = true)
    (hD : D ≠ [] ∧ ∀ c ∈ D, digitDot c = true)
    (hsp : sp = [] ∨ sp = [' ']) :
    trySuffix (lineTail A B C D sp z) = some ⟨A, B, C, D⟩ := by
  have hslash : digitDot '/' = false := by decide
  have hdrop : dropLit eqLit (lineTail A B C D sp z) = some (fieldsTail A B C D sp z) := by
    simpa [eqLit, lineTail] using dropLit_append_self eqLit (fieldsTail A B C D sp z)
  have hfA : fieldRun (fieldsTail A B C D sp z) =
      some (A, '/' :: (B ++ '/' :: (C ++ '/' :: (D ++ (sp ++ 'm' :: 's' :: z))))) :=
    fieldRun_exact '/' (B ++ '/' :: (C ++ '/' :: (D ++ (sp ++ 'm' :: 's' :: z)))) hA.2 hA.1 hslash
  have hfB : fieldRun (B ++ '/' :: (C ++ '/' :: (D ++ (sp ++ 'm' :: 's' :: z)))) =
      some (B, '/' :: (C ++ '/' :: (D ++ (sp ++ 'm' :: 's' :: z)))) :=
    fieldRun_exact '/' (C ++ '/' :: (D ++ (sp ++ 'm' :: 's' :: z))) hB.2 hB.1 hslash
  have hfC : fieldRun (C ++ '/' :: (D ++ (sp ++ 'm' :: 's' :: z))) =
      some (C, '/' :: (D ++ (sp ++ 'm' :: 's' :: z)))  :=
    fieldRun_exact '/' (D ++ (sp ++ 'm' :: 's' :: z)) hC.2 hC.1 hslash
  have hfD : fieldRun (D ++ (sp ++ 'm' :: 's' :: z)) = some (D, sp ++ 'm' :: 's' :: z) := by
    rcases hsp with h | h
    · subst h
      simpa using fieldRun_exact 'm' ('s' :: z) hD.2 hD.1 (by decide)
    · subst h
      simpa using fieldRun_exact ' ' ('m' :: 's' :: z) hD.2 hD.1 (by decide)
  have hms : tailMs (sp ++ 'm' :: 's' :: z) = true := by
    rcases hsp with h | h <;> subst h <;> rfl
  unfold trySuffix
  rw [hdrop, Option.some_bind, hfA, Option.some_bind]
  show Option.bind (expectSlash ('/' :: _)) _ = _
  rw [show ∀ r : List Char, expectSlash ('/' :: r) = some r from fun _ => rfl, Option.some_bind,
    hfB, Option.some_bind]
  show Option.bind (expectSlash ('/' :: _)) _ = _
  rw [show ∀ r : List Char, expectSlash ('/' :: r) = some r from fun _ => rfl, Option.some_bind,
    hfC, Option.some_bind]
  show Option.bind (expectSlash ('/' :: _)) _ = _
  rw [show ∀ r : List Char, expectSlash ('/' :: r) = some r from fun _ => rfl, Option.some_bind,
    hfD, Option.some_bind]
  show (if tailMs (sp ++ 'm' :: 's' :: z) then _ else none) = _
  rw [hms]
  simp

theorem trySuffix_none_of_startsL_false {cs : List Char}
    (h : startsL eqLit cs = false) : trySuffix cs = none := by
  unfold trySuffix
  rw [dropLit_none_of_startsL_false h]
  rfl

/-- What the character class guarantees about every captured group: it is a
nonempty string of digit/dot characters. -/
def capsOk (caps : Caps) : Prop :=
  (caps.g1 ≠ [] ∧ ∀ c ∈ caps.g1, digitDot c = true) ∧
  (caps.g2 ≠ [] ∧ ∀ c ∈ caps.g2, digitDot c = true) ∧
  (caps.g3 ≠ [] ∧ ∀ c ∈ caps.g3, digitDot c = true) ∧
  (caps.g4 ≠ [] ∧ ∀ c ∈ caps.g4, digitDot c = true)

theorem trySuffix_groups {cs : List Char} {caps : Caps} (h : trySuffix cs = some caps) :
    capsOk caps := by
  unfold capsOk
  unfold trySuffix at h
  simp only [Option.bind_eq_some] at h
  obtain ⟨r0, h0, p1, h1, r2, h2, p2, h3, r4, h4, p3, h5, r6, h6, p4, h7, h8⟩ := h
  split at h8
  · obtain rfl : Caps.mk p1.1 p2.1 p3.1 p4.1 = caps := by simpa using h8
    exact ⟨fieldRun_some h1, fieldRun_some h3, fieldRun_some h5, fieldRun_some h7⟩
  · exact absurd h8 (by simp)

/-! ### Lemmas about the greedy dot-star -/

theorem fieldsCore_append (A B C D sp z : List Char) :
    fieldsCore A B C D sp ++ z = fieldsTail A B C D sp z := by
  simp [fieldsCore, fieldsTail, List.append_assoc]

theorem mds_nil : matchDotStar [] = none := rfl

theorem mds_newline (s : List Char) : matchDotStar ('\n' :: s) = none := by
  unfold matchDotStar
  rw [if_pos rfl]
  show trySuffix ('\n' :: s) = none
  exact trySuffix_none_of_startsL_false (by simp [startsL, eqLit])

theorem mds_cons_success {cs : List Char} {r : Caps} {c : Char} (hc : c ≠ '\n')
    (h : matchDotStar cs = some r) : matchDotStar (c :: cs) = some r := by
  unfold matchDotStar
  rw [if_neg hc, h]

theorem mds_append_success {y z : List Char} {r : Caps} (hy : ∀ c ∈ y, c ≠ '\n')
    (h : matchDotStar z = some r) : matchDotStar (y ++ z) = some r := by
  induction y with
  | nil => simpa using h
  | cons c y2 ih =>
    exact mds_cons_success (hy c (by simp)) (ih fun a ha => hy a (by simp [ha]))

theorem noEqStarts {w z : List Char} (hw : '=' ∉ w) (hz : ∀ s, z ≠ '=' :: s) :
    ∀ i < w.length, startsL eqLit ((w ++ z).drop i) = false := by
  induction w with
  | nil => intro i hi; exact absurd hi (by simp)
  | cons c w2 ih =>
    intro i hi
    cases i with
    | zero =>
      show startsL eqLit (c :: (w2 ++ z)) = false
      by_cases hc : c = ' '
      · subst hc
        cases w2 with
        | cons c2 w3 =>
          have hc2 : c2 ≠ '=' := fun he => hw (by simp [he])
          simp [startsL, eqLit, hc2]
        | nil =>
          cases z with
          | nil => rfl
          | cons z0 zs =>
            have hz0 : z0 ≠ '=' := fun he => hz zs (by rw [he])
            simp [startsL, eqLit, hz0]
      · simp [startsL, eqLit, hc]
    | succ j =>
      have hj : j < w2.length := by simpa using hi
      have : ((c :: w2) ++ z).drop (j + 1) = (w2 ++ z).drop j := by simp
      rw [this]
      exact ih (fun he => hw (by simp [he])) j hj

theorem mds_none_of {y z : List Char}
    (hy : ∀ i < y.length, startsL eqLit ((y ++ z).drop i) = false)
    (hz : matchDotStar z = none) : matchDotStar (y ++ z) = none := by
  induction y with
  | nil => simpa using hz
  | cons c y2 ih =>
    have h0 : startsL eqLit (c :: (y2 ++ z)) = false := by
      have := hy 0 (by simp)
      simpa using this
    have hrest : matchDotStar (y2 ++ z) = none := by
      refine ih fun i hi => ?_
      have := hy (i + 1) (by simpa using Nat.succ_lt_succ hi)
      simpa using this
    show matchDotStar (c :: (y2 ++ z)) = none
    unfold matchDotStar
    by_cases hc : c = '\n'
    · rw [if_pos hc]
      exact trySuffix_none_of_startsL_false h0
    · rw [if_neg hc, hrest]
      exact trySuffix_none_of_startsL_false h0

theorem digitDot_ne_eqsign {c : Char} (h : digitDot c = true) : c ≠ '=' := by
  intro he
  subst he
  exact absurd h (by decide)

theorem eqsign_not_mem_fieldsCore {A B C D sp : List Char}
    (hA : ∀ c ∈ A, digitDot c = true) (hB : ∀ c ∈ B, digitDot c = true)
    (hC : ∀ c ∈ C, digitDot c = true) (hD : ∀ c ∈ D, digitDot c = true)
    (hsp : sp = [] ∨ sp = [' ']) : '=' ∉ fieldsCore A B C D sp := by
  have key : ∀ c ∈ fieldsCore A B C D sp, c ≠ '=' := by
    unfold fieldsCore
    intro c hc
    rcases List.mem_append.1 hc with h | h
    · exact digitDot_ne_eqsign (hA c h)
    rcases List.mem_cons.1 h with rfl | h
    · decide
    rcases List.mem_append.1 h with h | h
    · exact digitDot_ne_eqsign (hB c h)
    rcases List.mem_cons.1 h with rfl | h
    · decide
    rcases List.mem_append.1 h with h | h
    · exact digitDot_ne_eqsign (hC c h)
    rcases List.mem_cons.1 h with rfl | h
    · decide
    rcases List.mem_append.1 h with h | h
    · exact digitDot_ne_eqsign (hD c h)
    rcases List.mem_append.1 h with h | h
    · rcases hsp with hs | hs <;> subst hs
      · exact absurd h (List.not_mem_nil c)
      · rcases List.mem_singleton.1 h with rfl
        decide
    rcases List.mem_cons.1 h with rfl | h
    · decide
    rcases List.mem_cons.1 h with rfl | h
    · decide
    exact absurd h (List.not_mem_nil c)
  exact fun hmem => key '=' hmem rfl

/-- The whole-line match: against a ` = A/B/C/D ms`-shaped line tail whose
remainder `z` is empty or starts a new line, the greedy dot-star settles on
the ` = ` of the summary and the four fields are captured exactly. -/
theorem mds_lineTail (A B C D sp z : List Char)
    (hA : A ≠ [] ∧ ∀ c ∈ A, digitDot c = true)
    (hB : B ≠ [] ∧ ∀ c ∈ B, digitDot c = true)
    (hC : C ≠ [] ∧ ∀ c ∈ C, digitDot c = true)
    (hD : D ≠ [] ∧ ∀ c ∈ D, digitDot c = true)
    (hsp : sp = [] ∨ sp = [' '])
    (hz : z = [] ∨ ∃ s, z = '\n' :: s) :
    matchDotStar (lineTail A B C D sp z) = some ⟨A, B, C, D⟩ := by
  have hzn : matchDotStar z = none := by
    rcases hz with h | ⟨s, h⟩
    · rw [h]; exact mds_nil
    · rw [h]; exact mds_newline s
  have hz0 : ∀ s, z ≠ '=' :: s := by
    rcases hz with h | ⟨s, h⟩ <;> subst h <;> intro s2 he
    · exact absurd he (by simp)
    · exact absurd (List.head_eq_of_cons_eq he) (by decide)
  have hw : '=' ∉ fieldsCore A B C D sp :=
    eqsign_not_mem_fieldsCore hA.2 hB.2 hC.2 hD.2 hsp
  have hy : ∀ i < ('=' :: ' ' :: fieldsCore A B C D sp).length,
      startsL eqLit ((('=' :: ' ' :: fieldsCore A B C D sp) ++ z).drop i) = false := by
    intro i hi
    match i with
    | 0 => simp [startsL, eqLit]
    | 1 =>
      obtain ⟨a, A2, rfl⟩ : ∃ a A2, A = a :: A2 := by
        cases A with
        | nil => exact absurd rfl hA.1
        | cons a A2 => exact ⟨a, A2, rfl⟩
      have ha : a ≠ '=' := digitDot_ne_eqsign (hA.2 a (by simp))
      simp [fieldsCore, startsL, eqLit, ha]
    | j + 2 =>
      have hj : j < (fieldsCore A B C D sp).length := by
        simpa using hi
      have hdrop : ((('=' :: ' ' :: fieldsCore A B C D sp) ++ z)).drop (j + 2) =
          ((fieldsCore A B C D sp) ++ z).drop j := by simp
      rw [hdrop]
      exact noEqStarts hw hz0 j hj
  have hnone : matchDotStar (('=' :: ' ' :: fieldsCore A B C D sp) ++ z) = none :=
    mds_none_of hy hzn
  have hnone2 : matchDotStar ('=' :: ' ' :: fieldsTail A B C D sp z) = none := by
    have : ('=' :: ' ' :: fieldsCore A B C D sp) ++ z =
        '=' :: ' ' :: fieldsTail A B C D sp z := by
      simp [fieldsCore_append]
    rwa [this] at hnone
  show matchDotStar (' ' :: '=' :: ' ' :: fieldsTail A B C D sp z) = some ⟨A, B, C, D⟩
  unfold matchDotStar
  rw [if_neg (by decide), hnone2]
  exact trySuffix_correct A B C D sp z hA hB hC hD hsp

/-! ### Lemmas about the leftmost search -/

theorem tryHere_none_of_no_marker {cs : List Char} (h : markerAt cs = false) :
    tryHere cs = none := by
  unfold markerAt at h
  rw [Bool.or_eq_false_iff] at h
  unfold tryHere
  rw [h.1, h.2]
  rfl

theorem tryHere_at_marker {marker tail : List Char}
    (hm : marker = rttLit ∨ marker = roundLit) :
    tryHere (marker ++ tail) = matchDotStar tail := by
  rcases hm with h | h <;> subst h
  · unfold tryHere
    rw [startsL_append_self rttLit tail]
    simp [rttLit]
  · unfold tryHere
    have h1 : startsL rttLit (roundLit ++ tail) = false := by
      simp [rttLit, roundLit, startsL]
    rw [h1, startsL_append_self roundLit tail]
    simp [roundLit]

theorem reSearch_at_marker {marker tail : List Char} {caps : Caps}
    (hm : marker = rttLit ∨ marker = roundLit)
    (h : matchDotStar tail = some caps) :
    reSearch (marker ++ tail) = some caps := by
  have ht : tryHere (marker ++ tail) = some caps := by
    rw [tryHere_at_marker hm]; exact h
  rcases hm with hr | hr <;> subst hr
  · have ht2 : tryHere ('r' :: 't' :: 't' :: tail) = some caps := ht
    show reSearch ('r' :: 't' :: 't' :: tail) = some caps
    rw [reSearch, ht2]
  · have ht2 : tryHere ('r' :: 'o' :: 'u' :: 'n' :: 'd' :: '-' :: 't' :: 'r' :: 'i' :: 'p' ::
      tail) = some caps := ht
    show reSearch ('r' :: 'o' :: 'u' :: 'n' :: 'd' :: '-' :: 't' :: 'r' :: 'i' :: 'p' :: tail) =
      some caps
    rw [reSearch, ht2]

theorem reSearch_skip : ∀ (n : ℕ) (cs : List Char), noMarkerUpTo n cs = true →
    reSearch cs = reSearch (cs.drop n)
  | 0, _, _ => rfl
  | _ + 1, [], _ => by simp
  | n + 1, c :: cs, h => by
    have h2 : markerAt (c :: cs) = false ∧ noMarkerUpTo n cs = true := by
      simpa [noMarkerUpTo] using h
    have ht : tryHere (c :: cs) = none := tryHere_none_of_no_marker h2.1
    have e1 : reSearch (c :: cs) = reSearch cs := by
      rw [reSearch, ht]
    show reSearch (c :: cs) = reSearch ((c :: cs).drop (n + 1))
    rw [e1, List.drop_succ_cons]
    exact reSearch_skip n cs h2.2

theorem reSearch_none_of_no_marker : ∀ {cs : List Char}, containsMarker cs = false →
    reSearch cs = none
  | [], _ => rfl
  | c :: cs, h => by
    have h2 : markerAt (c :: cs) = false ∧ containsMarker cs = false := by
      simpa [containsMarker] using h
    show reSearch (c :: cs) = none
    rw [reSearch, tryHere_none_of_no_marker h2.1]
    exact reSearch_none_of_no_marker h2.2

theorem mds_groups : ∀ {cs : List Char} {caps : Caps},
    matchDotStar cs = some caps → capsOk caps
  | [], _, h => trySuffix_groups h
  | c :: cs, caps, h => by
    rw [matchDotStar] at h
    by_cases hc : c = '\n'
    · rw [if_pos hc] at h
      exact trySuffix_groups h
    · rw [if_neg hc] at h
      cases hm : matchDotStar cs with
      | some r =>
        rw [hm] at h
        obtain rfl : r = caps := by simpa using h
        exact mds_groups hm
      | none =>
        rw [hm] at h
        exact trySuffix_groups h

theorem tryHere_groups {cs : List Char} {caps : Caps} (h : tryHere cs = some caps) :
    capsOk caps := by
  unfold tryHere at h
  split_ifs at h
  · exact mds_groups h
  · exact mds_groups h

theorem reSearch_groups : ∀ {cs : List Char} {caps : Caps},
    reSearch cs = some caps → capsOk caps
  | [], _, h => by simp [reSearch] at h
  | c :: cs, caps, h => by
    rw [reSearch] at h
    cases ht : tryHere (c :: cs) with
    | some r =>
      rw [ht] at h
      obtain rfl : r = caps := by simpa using h
      exact tryHere_groups ht
    | none =>
      rw [ht] at h
      exact reSearch_groups h

/-- The summary-line search on a shaped text: a prefix without any marker
occurrence, a dialect marker, label text without newline, ` = `, four
digit/dot fields, an optional space, `ms`, and a remainder that is empty or
starts a new line.  The captures are exactly the four fields. -/
theorem reSearch_shaped (pre marker mid A B C D sp z : List Char)
    (hmark : marker = rttLit ∨ marker = roundLit)
    (hmid : ∀ c ∈ mid, c ≠ '\n')
    (hA : A ≠ [] ∧ ∀ c ∈ A, digitDot c = true)
    (hB : B ≠ [] ∧ ∀ c ∈ B, digitDot c = true)
    (hC : C ≠ [] ∧ ∀ c ∈ C, digitDot c = true)
    (hD : D ≠ [] ∧ ∀ c ∈ D, digitDot c = true)
    (hsp : sp = [] ∨ sp = [' '])
    (hz : z = [] ∨ ∃ s, z = '\n' :: s)
    (hpre : noMarkerUpTo pre.length
      (pre ++ (marker ++ (mid ++ lineTail A B C D sp z))) = true) :
    reSearch (pre ++ (marker ++ (mid ++ lineTail A B C D sp z))) = some ⟨A, B, C, D⟩ := by
  rw [reSearch_skip pre.length _ hpre, List.drop_left]
  exact reSearch_at_marker hmark
    (mds_append_success hmid (mds_lineTail A B C D sp z hA hB hC hD hsp hz))

/-! ### Lemmas about the scheduler loop -/

theorem runTicks_length (args : Args) : ∀ (i : ℕ) (envs : List TickEnv),
    (runTicks args i envs).length = envs.length
  | _, [] => rfl
  | i, e :: es => by
    simp only [runTicks, List.length_cons]
    rw [runTicks_length args _ es]

theorem runTicks_mem (args : Args) : ∀ (i : ℕ) (envs : List TickEnv) (lg : TickLog),
    lg ∈ runTicks args i envs →
    ∃ m, lg.written = some ("internet_metrics", m) ∧
      m.measurement_type = "internet_performance" ∧ lg.sleptSecs = args.interval
  | _, [], lg, h => absurd h (List.not_mem_nil lg)
  | i, e :: es, lg, h => by
    simp only [runTicks] at h
    rcases List.mem_cons.1 h with rfl | h2
    · exact ⟨_, rfl, rfl, rfl⟩
    · exact runTicks_mem args (tickStep args i e).1 es lg h2

theorem runTicks_scrub (args : Args) (f : TickEnv → Bool) : ∀ (i : ℕ) (envs : List TickEnv),
    (runTicks args i (envs.map fun e => { e with writeOk := f e })).map stripWrite =
    (runTicks args i envs).map stripWrite
  | _, [] => rfl
  | i, e :: es => by
    simp only [List.map_cons, runTicks, tickStep, run_measurements, stripWrite]
    exact congrArg _ (runTicks_scrub args f (i + 1) es)

/-! ### Claims -/

/-- C1: For every input text containing a summary line of either dialect —
one introduced by `rtt` and one by `round-trip`, of shape
`<label> = A/B/C/D ms` with or without a space before `ms` — the parsing
step of `measure_latency` returns the second of the four slash-separated
fields (B) parsed as a float.  The well-formed text is decomposed as a
prefix with no marker occurrence, a marker, label text without a newline,
` = `, the four digit/dot fields, an optional space, `ms`, and a remainder
that is empty or starts a new line. -/
theorem claim_C1_parse_avg (pre marker mid A B C D sp z : List Char) (q : ℚ)
    (hmark : marker = rttLit ∨ marker = roundLit)
    (hmid : ∀ c ∈ mid, c ≠ '\n')
    (hA : A ≠ [] ∧ ∀ c ∈ A, digitDot c = true)
    (hB : B ≠ [] ∧ ∀ c ∈ B, digitDot c = true)
    (hC : C ≠ [] ∧ ∀ c ∈ C, digitDot c = true)
    (hD : D ≠ [] ∧ ∀ c ∈ D, digitDot c = true)
    (hsp : sp = [] ∨ sp = [' '])
    (hz : z = [] ∨ ∃ s, z = '\n' :: s)
    (hpre : noMarkerUpTo pre.length
      (pre ++ (marker ++ (mid ++ lineTail A B C D sp z))) = true)
    (hq : parseF64 B = some q) :
    parseOutput (pre ++ (marker ++ (mid ++ lineTail A B C D sp z))) = Except.ok q := by
  unfold parseOutput
  rw [reSearch_shaped pre marker mid A B C D sp z hmark hmid hA hB hC hD hsp hz hpre]
  simp [hq]

/-- Witness for C1: the two end-to-end examples of the specification.
`15.456 = 1932/125` and `6.0 = 6` as exact rationals. -/
theorem claim_C1_parse_avg_witness :
    parseOutput "rtt min/avg/max/mdev = 10.123/15.456/20.789/2.345 ms".toList =
      Except.ok (1932 / 125 : ℚ) ∧
    parseOutput "round-trip min/avg/max/stddev = 5.0/6.0/7.0/1.0ms".toList =
      Except.ok (6 : ℚ) := by
  have hq1 : parseF64 "15.456".toList = some (1932 / 125 : ℚ) := by
    have h1 : parseF64 "15.456".toList =
        some ((natOfDigits "15".toList : ℚ) +
          (natOfDigits "456".toList : ℚ) / (10 ^ ("456".toList.length))) := rfl
    rw [h1, (by decide : natOfDigits "15".toList = 15),
      (by decide : natOfDigits "456".toList = 456),
      (by decide : ("456".toList.length) = 3)]
    norm_num
  have hq2 : parseF64 "6.0".toList = some (6 : ℚ) := by
    have h1 : parseF64 "6.0".toList =
        some ((natOfDigits "6".toList : ℚ) +
          (natOfDigits "0".toList : ℚ) / (10 ^ ("0".toList.length))) := rfl
    rw [h1, (by decide : natOfDigits "6".toList = 6),
      (by decide : natOfDigits "0".toList = 0),
      (by decide : ("0".toList.length) = 1)]
    norm_num
  constructor
  · have h := claim_C1_parse_avg [] rttLit " min/avg/max/mdev".toList "10.123".toList
      "15.456".toList "20.789".toList "2.345".toList [' '] [] (1932 / 125)
      (Or.inl rfl) (by decide) (by decide) (by decide) (by decide) (by decide)
      (Or.inr rfl) (Or.inl rfl) (by decide) hq1
    have e : "rtt min/avg/max/mdev = 10.123/15.456/20.789/2.345 ms".toList =
        [] ++ (rttLit ++ (" min/avg/max/mdev".toList ++ lineTail "10.123".toList
          "15.456".toList "20.789".toList "2.345".toList [' '] [])) := by decide
    rw [e]
    exact h
  · have h := claim_C1_parse_avg [] roundLit " min/avg/max/stddev".toList "5.0".toList
      "6.0".toList "7.0".toList "1.0".toList [] [] 6
      (Or.inr rfl) (by decide) (by decide) (by decide) (by decide) (by decide)
      (Or.inl rfl) (Or.inl rfl) (by decide) hq2
    have e : "round-trip min/avg/max/stddev = 5.0/6.0/7.0/1.0ms".toList =
        [] ++ (roundLit ++ (" min/avg/max/stddev".toList ++ lineTail "5.0".toList
          "6.0".toList "7.0".toList "1.0".toList [] [])) := by decide
    rw [e]
    exact h

/-- C3: For every input text that matches one of the two dialects but whose
second slash-separated field cannot be parsed as a float, the parser
returns the numeric-format failure, which is distinct from the no-match
failure. -/
theorem claim_C3_numeric_format (pre marker mid A B C D sp z : List Char)
    (hmark : marker = rttLit ∨ marker = roundLit)
    (hmid : ∀ c ∈ mid, c ≠ '\n')
    (hA : A ≠ [] ∧ ∀ c ∈ A, digitDot c = true)
    (hB : B ≠ [] ∧ ∀ c ∈ B, digitDot c = true)
    (hC : C ≠ [] ∧ ∀ c ∈ C, digitDot c = true)
    (hD : D ≠ [] ∧ ∀ c ∈ D, digitDot c = true)
    (hsp : sp = [] ∨ sp = [' '])
    (hz : z = [] ∨ ∃ s, z = '\n' :: s)
    (hpre : noMarkerUpTo pre.length
      (pre ++ (marker ++ (mid ++ lineTail A B C D sp z))) = true)
    (hq : parseF64 B = none) :
    parseOutput (pre ++ (marker ++ (mid ++ lineTail A B C D sp z))) =
      Except.error MLError.numericFormat ∧
    MLError.numericFormat ≠ MLError.noMatch := by
  refine ⟨?_, by decide⟩
  unfold parseOutput
  rw [reSearch_shaped pre marker mid A B C D sp z hmark hmid hA hB hC hD hsp hz hpre]
  simp [hq]

/-- Witness for C3: a summary line whose average field `1.2.3` is made of
digits and dots but is not a float. -/
theorem claim_C3_numeric_format_witness :
    parseOutput "rtt min/avg/max/mdev = 1/1.2.3/3/4 ms".toList =
      Except.error MLError.numericFormat ∧
    MLError.numericFormat ≠ MLError.noMatch := by
  have h := claim_C3_numeric_format [] rttLit " min/avg/max/mdev".toList "1".toList
    "1.2.3".toList "3".toList "4".toList [' '] []
    (Or.inl rfl) (by decide) (by decide) (by decide) (by decide) (by decide)
    (Or.inr rfl) (Or.inl rfl) (by decide) (by decide)
  have e : "rtt min/avg/max/mdev = 1/1.2.3/3/4 ms".toList =
      [] ++ (rttLit ++ (" min/avg/max/mdev".toList ++ lineTail "1".toList
        "1.2.3".toList "3".toList "4".toList [' '] [])) := by decide
  rw [e]
  exact h

/-- C5: For every input text containing neither the `rtt` nor the
`round-trip` dialect marker, the parser returns the no-match failure. -/
theorem claim_C5_no_match (cs : List Char) (h : containsMarker cs = false) :
    parseOutput cs = Except.error MLError.noMatch := by
  unfold parseOutput
  rw [reSearch_none_of_no_marker h]

/-- Witness for C5: ping output that never reached a summary line. -/
theorem claim_C5_no_match_witness :
    parseOutput "PING google.com (142.250.27.100): 56 data bytes\nRequest timeout".toList =
      Except.error MLError.noMatch :=
  claim_C5_no_match _ (by decide)

/-- C9: The dialect pattern only admits slash-separated fields made of
digits and dots, so the numeric-format failure is reachable exactly when
the captured second field is a digit/dot string that is not a valid float
(for example `1.2.3`), while a second field containing any other character
(such as the exponent letter in `2e3`) makes the pattern fail to match and
yields the no-match failure instead. -/
theorem claim_C9_class_restriction (cs : List Char) (caps : Caps)
    (h : reSearch cs = some caps) :
    (caps.g2 ≠ [] ∧ ∀ c ∈ caps.g2, digitDot c = true) ∧
    (parseOutput cs = Except.error MLError.numericFormat ↔ parseF64 caps.g2 = none) ∧
    parseOutput "rtt min/avg/max/mdev = 1/5.6.7/3/4 ms".toList =
      Except.error MLError.numericFormat ∧
    parseOutput "rtt min/avg/max/mdev = 1/2e3/3/4 ms".toList =
      Except.error MLError.noMatch := by
  refine ⟨(reSearch_groups h).2.1, ?_, by decide, by decide⟩
  unfold parseOutput
  rw [h]
  cases hp : parseF64 caps.g2 with
  | some v => simp [hp]
  | none => simp [hp]

/-- Witness for C9 at a concrete matching text. -/
theorem claim_C9_class_restriction_witness :
    (("8.8.8".toList : List Char) ≠ [] ∧ ∀ c ∈ ("8.8.8".toList : List Char),
      digitDot c = true) ∧
    (parseOutput "rtt x = 9/8.8.8/7/6 ms".toList = Except.error MLError.numericFormat ↔
      parseF64 "8.8.8".toList = none) ∧
    parseOutput "rtt min/avg/max/mdev = 1/5.6.7/3/4 ms".toList =
      Except.error MLError.numericFormat ∧
    parseOutput "rtt min/avg/max/mdev = 1/2e3/3/4 ms".toList =
      Except.error MLError.noMatch :=
  claim_C9_class_restriction "rtt x = 9/8.8.8/7/6 ms".toList
    ⟨"9".toList, "8.8.8".toList, "7".toList, "6".toList⟩ (by decide)

/-- C2: the Measurement Cycle (`run_measurements`) never fails: for every
combination of probe and parse outcomes it returns `Ok` with a well-formed
record carrying the current timestamp and an optional latency; the `Err`
branch of its result type is unreachable. -/
theorem claim_C2_cycle_total (probe : SpawnOutcome) (now : ℕ) :
    ∃ m : InternetMetrics, run_measurements probe now = Except.ok m ∧ m.time = now ∧
      ((∃ v, m.latency_ms = some v) ∨ m.latency_ms = none) ∧
      ∀ e : String, run_measurements probe now ≠ Except.error e := by
  refine ⟨_, rfl, rfl, ?_, ?_⟩
  · cases h : measure_latency probe with
    | ok v => exact Or.inl ⟨v, by simp [h]⟩
    | error e => exact Or.inr (by simp [h])
  · intro e h
    exact absurd h (by simp [run_measurements])

/-- Witness for C2 at a concrete probe outcome and timestamp. -/
theorem claim_C2_cycle_total_witness :
    ∃ m : InternetMetrics, run_measurements SpawnOutcome.spawnErr 42 = Except.ok m ∧
      m.time = 42 ∧ ((∃ v, m.latency_ms = some v) ∨ m.latency_ms = none) ∧
      ∀ e : String, run_measurements SpawnOutcome.spawnErr 42 ≠ Except.error e :=
  claim_C2_cycle_total SpawnOutcome.spawnErr 42

/-- C4: in every record the Measurement Cycle produces, `latency_ms` is
present if and only if the measurement succeeded, and when present it is
exactly the measured value — absence is the `none` of the optional field,
never a sentinel number. -/
theorem claim_C4_latency_iff_success (probe : SpawnOutcome) (now : ℕ)
    (m : InternetMetrics) (h : run_measurements probe now = Except.ok m) :
    (∀ v : ℚ, m.latency_ms = some v ↔ measure_latency probe = Except.ok v) ∧
    (m.latency_ms = none ↔ ∃ e, measure_latency probe = Except.error e) := by
  have hm : m = { time := now
                  measurement_type := "internet_performance"
                  latency_ms :=
                    match measure_latency probe with
                    | Except.ok v => some v
                    | Except.error _ => none } := by
    have := h.symm
    simpa [run_measurements] using this
  subst hm
  cases hml : measure_latency probe with
  | ok v => simp [hml]
  | error e => simp [hml]

/-- Witness for C4 at a concrete failing probe. -/
theorem claim_C4_latency_iff_success_witness :
    (∀ v : ℚ,
        (InternetMetrics.mk 3 "internet_performance" none).latency_ms = some v ↔
          measure_latency SpawnOutcome.spawnErr = Except.ok v) ∧
    ((InternetMetrics.mk 3 "internet_performance" none).latency_ms = none ↔
      ∃ e, measure_latency SpawnOutcome.spawnErr = Except.error e) :=
  claim_C4_latency_iff_success SpawnOutcome.spawnErr 3 _ rfl

/-- C6: the Probe Runner has two distinct failure modes, both returned as
error values: a spawn failure yields the spawn-failed error, and a nonzero
exit status yields a distinct error carrying the subprocess's stderr text;
the Measurement Cycle downgrades the latter to an absent latency. -/
theorem claim_C6_probe_errors (stdout stderrText : List Char) (now : ℕ) :
    measure_latency SpawnOutcome.spawnErr = Except.error MLError.spawnFailed ∧
    measure_latency (SpawnOutcome.completed false stdout stderrText) =
      Except.error (MLError.commandFailed stderrText) ∧
    MLError.commandFailed stderrText ≠ MLError.spawnFailed ∧
    run_measurements (SpawnOutcome.completed false stdout stderrText) now =
      Except.ok (InternetMetrics.mk now "internet_performance" none) :=
  ⟨rfl, rfl, by simp, rfl⟩

/-- Witness for C6: the specification's end-to-end example 3, a nonzero
exit with stderr `unknown host`. -/
theorem claim_C6_probe_errors_witness :
    measure_latency SpawnOutcome.spawnErr = Except.error MLError.spawnFailed ∧
    measure_latency (SpawnOutcome.completed false [] "unknown host".toList) =
      Except.error (MLError.commandFailed "unknown host".toList) ∧
    MLError.commandFailed "unknown host".toList ≠ MLError.spawnFailed ∧
    run_measurements (SpawnOutcome.completed false [] "unknown host".toList) 9 =
      Except.ok (InternetMetrics.mk 9 "internet_performance" none) :=
  claim_C6_probe_errors [] "unknown host".toList 9

/-- C7: a failing sink write never alters the Scheduler: against a sink
that always fails, the loop still performs one tick per environment, each
tick sleeps for the configured interval, and everything the scheduler does
apart from the logged write outcome is identical to a run with the
original write outcomes. -/
theorem claim_C7_write_failure_immaterial (args : Args) (i : ℕ) (envs : List TickEnv) :
    (runTicks args i (envs.map fun e => { e with writeOk := false })).length =
      envs.length ∧
    (∀ lg ∈ runTicks args i (envs.map fun e => { e with writeOk := false }),
      lg.sleptSecs = args.interval) ∧
    (runTicks args i (envs.map fun e => { e with writeOk := false })).map stripWrite =
      (runTicks args i envs).map stripWrite := by
  refine ⟨?_, ?_, runTicks_scrub args (fun _ => false) i envs⟩
  · rw [runTicks_length, List.length_map]
  · intro lg hlg
    obtain ⟨m, _, _, hs⟩ := runTicks_mem args i _ lg hlg
    exact hs

/-- Witness for C7 with a one-tick run. -/
theorem claim_C7_write_failure_immaterial_witness :
    (runTicks ⟨5, "db", "google.com"⟩ 0
      (([⟨SpawnOutcome.spawnErr, 11, true⟩] : List TickEnv).map
        fun e => { e with writeOk := false })).length =
      ([⟨SpawnOutcome.spawnErr, 11, true⟩] : List TickEnv).length ∧
    (∀ lg ∈ runTicks ⟨5, "db", "google.com"⟩ 0
      (([⟨SpawnOutcome.spawnErr, 11, true⟩] : List TickEnv).map
        fun e => { e with writeOk := false }),
      lg.sleptSecs = (⟨5, "db", "google.com"⟩ : Args).interval) ∧
    (runTicks ⟨5, "db", "google.com"⟩ 0
      (([⟨SpawnOutcome.spawnErr, 11, true⟩] : List TickEnv).map
        fun e => { e with writeOk := false })).map stripWrite =
      (runTicks ⟨5, "db", "google.com"⟩ 0
        ([⟨SpawnOutcome.spawnErr, 11, true⟩] : List TickEnv)).map stripWrite :=
  claim_C7_write_failure_immaterial ⟨5, "db", "google.com"⟩ 0
    [⟨SpawnOutcome.spawnErr, 11, true⟩]

/-- C8: the one-time startup connectivity check is best-effort: its failure
is logged at warning severity, the process still enters the tick loop with
behaviour identical to a successful check, and every tick still attempts a
write. -/
theorem claim_C8_startup_best_effort (args : Args) (msg : String) (envs : List TickEnv) :
    (startupLog (PingOutcome.err msg)).1 = Level.warn ∧
    (mainModel args (PingOutcome.err msg) envs).2 =
      (mainModel args PingOutcome.ok envs).2 ∧
    (mainModel args (PingOutcome.err msg) envs).2.length = envs.length ∧
    ∀ lg ∈ (mainModel args (PingOutcome.err msg) envs).2,
      ∃ m, lg.written = some ("internet_metrics", m) := by
  refine ⟨rfl, rfl, runTicks_length args 0 envs, fun lg hlg => ?_⟩
  obtain ⟨m, hm, _, _⟩ := runTicks_mem args 0 envs lg hlg
  exact ⟨m, hm⟩

/-- Witness for C8 with a one-tick run after a failed startup check. -/
theorem claim_C8_startup_best_effort_witness :
    (startupLog (PingOutcome.err "connection refused")).1 = Level.warn ∧
    (mainModel ⟨5, "db", "google.com"⟩ (PingOutcome.err "connection refused")
      [⟨SpawnOutcome.spawnErr, 11, true⟩]).2 =
      (mainModel ⟨5, "db", "google.com"⟩ PingOutcome.ok
        [⟨SpawnOutcome.spawnErr, 11, true⟩]).2 ∧
    (mainModel ⟨5, "db", "google.com"⟩ (PingOutcome.err "connection refused")
      [⟨SpawnOutcome.spawnErr, 11, true⟩]).2.length =
      ([⟨SpawnOutcome.spawnErr, 11, true⟩] : List TickEnv).length ∧
    ∀ lg ∈ (mainModel ⟨5, "db", "google.com"⟩ (PingOutcome.err "connection refused")
      [⟨SpawnOutcome.spawnErr, 11, true⟩]).2,
      ∃ m, lg.written = some ("internet_metrics", m) :=
  claim_C8_startup_best_effort ⟨5, "db", "google.com"⟩ "connection refused"
    [⟨SpawnOutcome.spawnErr, 11, true⟩]

/-- C10: every record the loop submits to the sink goes under the fixed
series name `internet_metrics` and carries the constant measurement type
`internet_performance`, regardless of configuration, iteration counter and
probe outcome. -/
theorem claim_C10_fixed_names (args : Args) (i : ℕ) (envs : List TickEnv)
    (lg : TickLog) (h : lg ∈ runTicks args i envs) :
    ∃ m, lg.written = some ("internet_metrics", m) ∧
      m.measurement_type = "internet_performance" := by
  obtain ⟨m, h1, h2, _⟩ := runTicks_mem args i envs lg h
  exact ⟨m, h1, h2⟩

/-- Witness for C10 at a concrete one-tick run with a differing configured
database name. -/
theorem claim_C10_fixed_names_witness :
    ∃ m, (TickLog.mk 1
        (some ("internet_metrics", InternetMetrics.mk 11 "internet_performance" none))
        (some true) 5).written =
        some ("internet_metrics", m) ∧
      m.measurement_type = "internet_performance" :=
  claim_C10_fixed_names ⟨5, "otherdb", "google.com"⟩ 0
    [⟨SpawnOutcome.spawnErr, 11, true⟩] _ (by decide)

end InternetMonitor
